import Mathlib

/-!
Verification of the truck-loading dashboard pipeline (`app.py`).

The pipeline transforms raw feed rows into normalized events, reconstructs
one interval record per (date, product, plate) key, derives guarded
durations, tracks the latest status per plate for a selected date, and
aggregates daily/product summaries.  Timestamps are modelled as integer
seconds, elapsed minutes as rationals.
-/

/-- Synonym table for status labels (`status_map` in `app.py`). -/
def status_map (s : String) : Option String :=
  if s = "waiting" ∨ s = "wait" then some "Waiting"
  else if s = "start" ∨ s = "start loading" ∨ s = "loading start" then some "Start Loading"
  else if s = "complete" ∨ s = "completed" ∨ s = "complete loading" then some "Complete Loading"
  else none

/-- Strip leading and trailing whitespace from a character list
(the char-level model of `str.strip()`). -/
def trimChars (cs : List Char) : List Char :=
  ((cs.dropWhile Char.isWhitespace).reverse.dropWhile Char.isWhitespace).reverse

/-- Strip then lower-case a label (`str.strip().str.lower()`). -/
def stripLower (s : String) : String :=
  String.mk ((trimChars s.data).map Char.toLower)

/-- Status normalization: strip, lower-case, look up in the synonym table,
and fall back to the original label when unmatched
(`df["Status"].str.strip().str.lower().map(status_map).fillna(df["Status"])`). -/
def normStatus (s : String) : String :=
  match status_map (stripLower s) with
  | some v => v
  | none => s

/-- One raw feed row: every field arrives as free-form text. -/
structure RawEvent where
  timestamp : String
  product : String
  plate : String
  status : String
deriving DecidableEq, Repr

/-- A normalized event: parsed timestamp (seconds), derived date, and a
normalized status label. -/
structure Event where
  timestamp : Int
  date : Int
  product : String
  plate : String
  status : String
deriving DecidableEq, Repr

/-- Calendar date derived from a timestamp (`df["Timestamp"].dt.date`). -/
def dateOf (t : Int) : Int := t.fdiv 86400

/-- Build the normalized event for a raw row once its timestamp parsed. -/
def mkEvent (t : Int) (r : RawEvent) : Event :=
  { timestamp := t, date := dateOf t, product := r.product, plate := r.plate,
    status := normStatus r.status }

/-- Row normalization: parse each timestamp, derive the date, normalize the
status, and drop rows whose timestamp failed to parse
(`pd.to_datetime(..., errors="coerce")` followed by `dropna(subset=["Timestamp"])`). -/
def load_rows (parse : String → Option Int) (rows : List RawEvent) : List Event :=
  rows.filterMap fun r => (parse r.timestamp).map fun t => mkEvent t r

/-- A feed: the CSV header columns plus the data rows. -/
structure Feed where
  columns : List String
  rows : List RawEvent
deriving Repr

/-- Column rename pairs applied before the schema check (`rename_map`). -/
def renamePairs : List (String × String) :=
  [("Plate Number", "Plate"), ("Product Group", "Product"),
   ("Action", "Status"), ("Time", "Timestamp")]

/-- Apply the conditional renames: each pair `(k, v)` renames column `k` to
`v` when `k` is present and `v` is not. -/
def renameCols (cols : List String) : List String :=
  renamePairs.foldl
    (fun cs kv =>
      if kv.1 ∈ cs ∧ ¬ kv.2 ∈ cs then cs.map (fun c => if c = kv.1 then kv.2 else c) else cs)
    cols

/-- The required feed columns (`req` in `load_action`). -/
def requiredCols : List String := ["Timestamp", "Product", "Plate", "Status"]

/-- Required columns still missing after the renames. -/
def missingCols (cols : List String) : List String :=
  requiredCols.filter fun c => ¬ c ∈ renameCols cols

/-- Full load step (`load_action`): fail the cycle naming the missing
columns when any required column is absent, otherwise normalize the rows. -/
def load_action (parse : String → Option Int) (feed : Feed) :
    Except (List String) (List Event) :=
  if missingCols feed.columns = [] then Except.ok (load_rows parse feed.rows)
  else Except.error (missingCols feed.columns)

/-- One interval record per (date, product, plate) key (`wide`). -/
structure IntervalRecord where
  date : Int
  product : String
  plate : String
  waiting : Option Int
  startLoading : Option Int
  completeLoading : Option Int
deriving DecidableEq, Repr

/-- Stable sort by a key into a linear order (how `sort_values` behaves:
pandas lexsort over columns is a stable comparison sort). -/
def sortBy {α : Type} {κ : Type} [LinearOrder κ] (key : α → κ) (l : List α) : List α :=
  List.insertionSort (fun a b => key a ≤ key b) l

/-- Grouping key of an event: (date, product, plate). -/
def evKey (e : Event) : Int × String × String := (e.date, e.product, e.plate)

/-- Grouping key of an interval record. -/
def recKey (r : IntervalRecord) : Int × String × String := (r.date, r.product, r.plate)

/-- Timestamps of the events in one (date, product, plate, status) group. -/
def groupTimestamps (evs : List Event) (k : Int × String × String) (st : String) : List Int :=
  (evs.filter fun e => evKey e = k ∧ e.status = st).map (·.timestamp)

/-- First timestamp of a (key, status) group in sorted order: the code sorts
by (Date, Product, Plate, Status, Timestamp) and takes `.first()` per group,
which within a group is the head of its timestamps sorted ascending
(`first_stage`). -/
def firstStageTime (evs : List Event) (k : Int × String × String) (st : String) : Option Int :=
  (sortBy id (groupTimestamps evs k st)).head?

/-- Distinct (date, product, plate) keys, first occurrence order. -/
def distinctKeys (evs : List Event) : List (Int × String × String) :=
  (evs.map evKey).dedup

/-- Pivot to one record per key with the first timestamp of each of the
three known statuses (`wide`, including the reindex to the three columns). -/
def wide (evs : List Event) : List IntervalRecord :=
  (distinctKeys evs).map fun k =>
    { date := k.1, product := k.2.1, plate := k.2.2,
      waiting := firstStageTime evs k "Waiting",
      startLoading := firstStageTime evs k "Start Loading",
      completeLoading := firstStageTime evs k "Complete Loading" }

/-- Elapsed minutes between two optional instants; absent when either
endpoint is absent (`(end - start).dt.total_seconds() / 60`). -/
def minutesBetween (endT startT : Option Int) : Option ℚ :=
  match endT, startT with
  | some e, some s => some (((e : ℚ) - (s : ℚ)) / 60)
  | _, _ => none

/-- Negative-duration guard (`wide.loc[wide[c] < 0, c] = np.nan`). -/
def dropNeg (x : Option ℚ) : Option ℚ :=
  match x with
  | some v => if v < 0 then none else some v
  | none => none

/-- The three derived durations of a record. -/
structure DurationSet where
  waiting_min : Option ℚ
  loading_min : Option ℚ
  total_min : Option ℚ
deriving DecidableEq, Repr

/-- Duration calculation over one interval record (section 4 of `app.py`). -/
def durations (r : IntervalRecord) : DurationSet :=
  { waiting_min := dropNeg (minutesBetween r.startLoading r.waiting),
    loading_min := dropNeg (minutesBetween r.completeLoading r.startLoading),
    total_min := dropNeg (minutesBetween r.completeLoading r.waiting) }

/-- Round to the nearest integer, ties to even: the rounding used by
numpy and hence by pandas `DataFrame.round`. -/
def roundHalfEven (q : ℚ) : ℤ :=
  if q - ⌊q⌋ < 1/2 then ⌊q⌋
  else if 1/2 < q - ⌊q⌋ then ⌊q⌋ + 1
  else if 2 ∣ ⌊q⌋ then ⌊q⌋ else ⌊q⌋ + 1

/-- Round a rational to one decimal place (the `.round(1)` applied to the
summary dataframe). -/
def round1 (q : ℚ) : ℚ := (roundHalfEven (10 * q) : ℚ) / 10

/-- Date and product filter applied before the summary (`df_day`). -/
def df_day (evs : List Event) (selDate : Int) (selProducts : List String) :
    List IntervalRecord :=
  (wide evs).filter fun r => r.date = selDate ∧ r.product ∈ selProducts

/-- Mean over the known values of an optional column, absent when no value
is known (pandas `mean` skips missing values and yields NaN on an empty
group). -/
def meanOpt (xs : List (Option ℚ)) : Option ℚ :=
  match xs.filterMap id with
  | [] => none
  | ys => some (ys.sum / ys.length)

/-- One row of the daily/product summary. -/
structure Summary where
  date : Int
  product : String
  avgWaiting : Option ℚ
  avgLoading : Option ℚ
  avgTotal : Option ℚ
  truckCount : Nat
deriving DecidableEq, Repr

/-- Grouping key of a summary row. -/
def sumKey (s : Summary) : Int × String := (s.date, s.product)

/-- Daily/product summary (`summary`): group records by (date, product),
average each duration column over the known values, round each average to
one decimal place (`.round(1)`, a no-op on the absent averages and on the
integer count), and count the rows of the group (`Plate` is never missing,
so pandas count is the group size). -/
def summaryOf (rows : List IntervalRecord) : List Summary :=
  ((rows.map fun r => (r.date, r.product)).dedup).map fun k =>
    let g := rows.filter fun r => r.date = k.1 ∧ r.product = k.2
    { date := k.1, product := k.2,
      avgWaiting := (meanOpt (g.map fun r => (durations r).waiting_min)).map round1,
      avgLoading := (meanOpt (g.map fun r => (durations r).loading_min)).map round1,
      avgTotal := (meanOpt (g.map fun r => (durations r).total_min)).map round1,
      truckCount := g.length }

/-- Sort key of `latest` (`sort_values(["Plate","Timestamp"])` over the
indexed day rows): stable sorting by (plate, timestamp) is sorting by
(plate, timestamp, original position) lexicographically. -/
def latestSortKey (x : Nat × Event) : Lex (List Char × Lex (Int × Nat)) :=
  toLex (x.2.plate.data, toLex (x.2.timestamp, x.1))

/-- The day's events of the selected date, tagged with their original
position (`action[action["Date"] == sel_date]`). -/
def dayRows (evs : List Event) (selDate : Int) : List (Nat × Event) :=
  (evs.filter fun e => e.date = selDate).enum

/-- Latest event of one plate on the selected date: last row of the plate's
group after the stable (plate, timestamp) sort (`groupby("Plate").tail(1)`). -/
def latestFor (evs : List Event) (selDate : Int) (pl : String) : Option Event :=
  ((((sortBy latestSortKey (dayRows evs selDate)).filter
      fun x => x.2.plate = pl).map (·.2)).getLast?)

/-- Latest event per plate observed on the selected date (`latest`). -/
def latestPerPlate (evs : List Event) (selDate : Int) : List Event :=
  (((evs.filter fun e => e.date = selDate).map (·.plate)).dedup).filterMap
    (latestFor evs selDate)

/-- The three known statuses, in the fixed display order. -/
def knownStatuses : List String := ["Waiting", "Start Loading", "Complete Loading"]

/-- Live status counts (`status_counts`): occurrences of each of the three
known statuses among the latest events, zero-filled
(`value_counts().reindex([...], fill_value=0)`). -/
def status_counts (evs : List Event) (selDate : Int) : List (String × Nat) :=
  knownStatuses.map fun st =>
    (st, ((latestPerPlate evs selDate).filter fun e => e.status = st).length)

/-! ### Generic lemmas about the stable sort -/

lemma sortBy_perm {α κ : Type} [LinearOrder κ] (key : α → κ) (l : List α) :
    List.Perm (sortBy key l) l :=
  List.perm_insertionSort _ l

lemma sortBy_sorted {α κ : Type} [LinearOrder κ] (key : α → κ) (l : List α) :
    (sortBy key l).Pairwise fun a b => key a ≤ key b := by
  haveI : IsTotal α fun a b => key a ≤ key b := ⟨fun a b => le_total _ _⟩
  haveI : IsTrans α fun a b => key a ≤ key b := ⟨fun _ _ _ hab hbc => le_trans hab hbc⟩
  exact List.sorted_insertionSort _ l

lemma sortBy_id_head_none (l : List Int) : (sortBy id l).head? = none ↔ l = [] := by
  cases hs : sortBy id l with
  | nil =>
      simp only [List.head?_nil, true_iff]
      have hp := sortBy_perm id l
      rw [hs] at hp
      exact hp.symm.eq_nil
  | cons a as =>
      simp only [List.head?_cons, reduceCtorEq, false_iff]
      intro hl
      rw [hl] at hs
      simp [sortBy] at hs

lemma sortBy_id_head_some (l : List Int) (t : Int) (h : (sortBy id l).head? = some t) :
    t ∈ l ∧ ∀ u ∈ l, t ≤ u := by
  cases hs : sortBy id l with
  | nil => rw [hs] at h; simp at h
  | cons a as =>
      rw [hs] at h
      simp only [List.head?_cons, Option.some.injEq] at h
      have hp := sortBy_perm id l
      rw [hs] at hp
      have hsort := sortBy_sorted id l
      rw [hs] at hsort
      have hhead := (List.pairwise_cons.mp hsort).1
      rw [← h]
      constructor
      · exact hp.mem_iff.mp (List.mem_cons_self a as)
      · intro u hu
        have hm : u ∈ a :: as := hp.symm.mem_iff.mp hu
        rcases List.mem_cons.mp hm with h2 | hmem
        · rw [h2]
        · exact hhead u hmem

/-! ### Lemmas about the guarded duration computation -/

lemma guarded_cases (a b : Option Int) :
    ((b = none ∨ a = none) → dropNeg (minutesBetween a b) = none)
  ∧ (∀ s e, b = some s → a = some e → s ≤ e →
      dropNeg (minutesBetween a b) = some (((e : ℚ) - (s : ℚ)) / 60))
  ∧ (∀ s e, b = some s → a = some e → e < s → dropNeg (minutesBetween a b) = none)
  ∧ (∀ q, dropNeg (minutesBetween a b) = some q → 0 ≤ q) := by
  have key : ∀ s e : Int, (((e : ℚ) - (s : ℚ)) / 60 < 0 ↔ e < s) := by
    intro s e
    rw [div_lt_iff₀ (by norm_num : (0 : ℚ) < 60)]
    rw [zero_mul, sub_neg]
    exact_mod_cast Iff.rfl
  refine ⟨?_, ?_, ?_, ?_⟩
  · rintro (h | h) <;> subst h
    · cases a <;> rfl
    · cases b <;> rfl
  · intro s e hb ha hle
    subst hb; subst ha
    simp only [minutesBetween, dropNeg]
    rw [if_neg (not_lt.mpr (le_of_not_lt (fun hc => absurd ((key s e).mp hc) (not_lt.mpr hle))))]
  · intro s e hb ha hlt
    subst hb; subst ha
    simp only [minutesBetween, dropNeg]
    rw [if_pos ((key s e).mpr hlt)]
  · intro q hq
    cases a with
    | none => simp [minutesBetween, dropNeg] at hq
    | some e =>
        cases b with
        | none => simp [minutesBetween, dropNeg] at hq
        | some s =>
            simp only [minutesBetween, dropNeg] at hq
            split at hq
            · exact absurd hq (by simp)
            · next hneg => rw [Option.some.injEq] at hq; subst hq; exact not_lt.mp hneg

/-! ### Claim C2: duration derivation and negative-duration guard -/

/-- C2: each of the three durations is absent when either endpoint is
absent, equals the elapsed minutes when both are present and the
difference is non-negative, is absent when the difference is negative,
and is never negative in the output. -/
theorem duration_guard_correct (r : IntervalRecord) :
    (((r.waiting = none ∨ r.startLoading = none) → (durations r).waiting_min = none)
      ∧ (∀ s e, r.waiting = some s → r.startLoading = some e → s ≤ e →
          (durations r).waiting_min = some (((e : ℚ) - (s : ℚ)) / 60))
      ∧ (∀ s e, r.waiting = some s → r.startLoading = some e → e < s →
          (durations r).waiting_min = none)
      ∧ (∀ q, (durations r).waiting_min = some q → 0 ≤ q))
  ∧ (((r.startLoading = none ∨ r.completeLoading = none) → (durations r).loading_min = none)
      ∧ (∀ s e, r.startLoading = some s → r.completeLoading = some e → s ≤ e →
          (durations r).loading_min = some (((e : ℚ) - (s : ℚ)) / 60))
      ∧ (∀ s e, r.startLoading = some s → r.completeLoading = some e → e < s →
          (durations r).loading_min = none)
      ∧ (∀ q, (durations r).loading_min = some q → 0 ≤ q))
  ∧ (((r.waiting = none ∨ r.completeLoading = none) → (durations r).total_min = none)
      ∧ (∀ s e, r.waiting = some s → r.completeLoading = some e → s ≤ e →
          (durations r).total_min = some (((e : ℚ) - (s : ℚ)) / 60))
      ∧ (∀ s e, r.waiting = some s → r.completeLoading = some e → e < s →
          (durations r).total_min = none)
      ∧ (∀ q, (durations r).total_min = some q → 0 ≤ q)) :=
  ⟨guarded_cases r.startLoading r.waiting,
   guarded_cases r.completeLoading r.startLoading,
   guarded_cases r.completeLoading r.waiting⟩

/-- Witness for C2 on a concrete record: waiting 08:00, start 08:30,
complete 08:20 (out of order), so waiting takes 30 minutes and the
loading and total durations are suppressed. -/
theorem duration_guard_correct_witness :
    (durations { date := 0, product := "Cement", plate := "ABC-1", waiting := some 28800,
                 startLoading := some 30600, completeLoading := some 30000 }).waiting_min
      = some 30
  ∧ (durations { date := 0, product := "Cement", plate := "ABC-1", waiting := some 28800,
                 startLoading := some 30600, completeLoading := some 30000 }).loading_min
      = none := by
  have h := duration_guard_correct { date := 0, product := "Cement", plate := "ABC-1",
                                     waiting := some 28800, startLoading := some 30600,
                                     completeLoading := some 30000 }
  refine ⟨?_, h.2.1.2.2.1 30600 30000 rfl rfl (by decide)⟩
  rw [h.1.2.1 28800 30600 rfl rfl (by decide)]
  norm_num

/-! ### Claim C10: a zero duration is kept, not suppressed -/

/-- C10: when the two endpoints of a duration pair are present and equal,
the resulting zero duration is kept as a known value. -/
theorem zero_duration_kept (r : IntervalRecord) (t u v : Int) :
    (r.waiting = some t → r.startLoading = some t → (durations r).waiting_min = some 0)
  ∧ (r.startLoading = some u → r.completeLoading = some u → (durations r).loading_min = some 0)
  ∧ (r.waiting = some v → r.completeLoading = some v → (durations r).total_min = some 0) := by
  refine ⟨fun h1 h2 => ?_, fun h1 h2 => ?_, fun h1 h2 => ?_⟩
  · show dropNeg (minutesBetween r.startLoading r.waiting) = some 0
    rw [(guarded_cases r.startLoading r.waiting).2.1 t t h1 h2 le_rfl]
    norm_num
  · show dropNeg (minutesBetween r.completeLoading r.startLoading) = some 0
    rw [(guarded_cases r.completeLoading r.startLoading).2.1 u u h1 h2 le_rfl]
    norm_num
  · show dropNeg (minutesBetween r.completeLoading r.waiting) = some 0
    rw [(guarded_cases r.completeLoading r.waiting).2.1 v v h1 h2 le_rfl]
    norm_num

/-- Witness for C10: all three stages at the same instant give three known
zero durations. -/
theorem zero_duration_kept_witness :
    (durations { date := 0, product := "P", plate := "A", waiting := some 42,
                 startLoading := some 42, completeLoading := some 42 }).waiting_min = some 0
  ∧ (durations { date := 0, product := "P", plate := "A", waiting := some 42,
                 startLoading := some 42, completeLoading := some 42 }).loading_min = some 0
  ∧ (durations { date := 0, product := "P", plate := "A", waiting := some 42,
                 startLoading := some 42, completeLoading := some 42 }).total_min = some 0 := by
  have h := zero_duration_kept { date := 0, product := "P", plate := "A", waiting := some 42,
                                 startLoading := some 42, completeLoading := some 42 } 42 42 42
  exact ⟨h.1 rfl rfl, h.2.1 rfl rfl, h.2.2 rfl rfl⟩

/-! ### Claim C4: status label normalization -/

/-- C4: normalization trims and lower-cases the label, maps each synonym
class to its canonical status, and leaves any unmatched label exactly as
its original text. -/
theorem status_label_mapping :
    (∀ s, stripLower s = "waiting" ∨ stripLower s = "wait" → normStatus s = "Waiting")
  ∧ (∀ s, stripLower s = "start" ∨ stripLower s = "start loading" ∨
        stripLower s = "loading start" → normStatus s = "Start Loading")
  ∧ (∀ s, stripLower s = "complete" ∨ stripLower s = "completed" ∨
        stripLower s = "complete loading" → normStatus s = "Complete Loading")
  ∧ (∀ s, ¬ stripLower s ∈ ["waiting", "wait", "start", "start loading", "loading start",
        "complete", "completed", "complete loading"] → normStatus s = s) := by
  refine ⟨fun s h => ?_, fun s h => ?_, fun s h => ?_, fun s h => ?_⟩
  · rcases h with h | h <;> simp [normStatus, status_map, h]
  · rcases h with h | h | h <;> simp [normStatus, status_map, h]
  · rcases h with h | h | h <;> simp [normStatus, status_map, h]
  · simp only [List.mem_cons, List.not_mem_nil, or_false, not_or] at h
    obtain ⟨h1, h2, h3, h4, h5, h6, h7, h8⟩ := h
    simp [normStatus, status_map, h1, h2, h3, h4, h5, h6, h7, h8]

/-- Witness for C4 on concrete labels from each class and an unmatched
label. -/
theorem status_label_mapping_witness :
    normStatus " WAIT " = "Waiting" ∧ normStatus "START LOADING" = "Start Loading"
  ∧ normStatus "Completed" = "Complete Loading" ∧ normStatus " Unloading " = " Unloading " :=
  ⟨status_label_mapping.1 " WAIT " (Or.inr (by decide)),
   status_label_mapping.2.1 "START LOADING" (Or.inr (Or.inl (by decide))),
   status_label_mapping.2.2.1 "Completed" (Or.inr (Or.inl (by decide))),
   status_label_mapping.2.2.2 " Unloading " (by decide)⟩

/-! ### Claim C9: normalization is idempotent -/

/-- C9: applying status normalization to an already-normalized label is a
no-op, for every input label. -/
theorem status_normalization_idempotent (s : String) :
    normStatus (normStatus s) = normStatus s := by
  cases h : status_map (stripLower s) with
  | none =>
      have h1 : normStatus s = s := by simp only [normStatus, h]
      rw [h1]
      exact h1
  | some v =>
      have h1 : normStatus s = v := by simp only [normStatus, h]
      rw [h1]
      have hv : v = "Waiting" ∨ v = "Start Loading" ∨ v = "Complete Loading" := by
        unfold status_map at h
        split at h
        · exact Or.inl (Option.some.inj h).symm
        · split at h
          · exact Or.inr (Or.inl (Option.some.inj h).symm)
          · split at h
            · exact Or.inr (Or.inr (Option.some.inj h).symm)
            · exact absurd h (by simp)
      rcases hv with hv | hv | hv <;> rw [hv] <;> decide

/-! ### Claim C7: per-record drop of unparseable timestamps -/

/-- C7: a row whose timestamp fails to parse is dropped while the rest of
the batch is processed, normalization never fails the batch, the output is
no longer than the input, and every output event carries a successfully
parsed timestamp. -/
theorem unparseable_rows_dropped (parse : String → Option Int) :
    (∀ pre post r, parse r.timestamp = none →
        load_rows parse (pre ++ r :: post) = load_rows parse pre ++ load_rows parse post)
  ∧ (∀ pre post r t, parse r.timestamp = some t →
        load_rows parse (pre ++ r :: post) =
          load_rows parse pre ++ mkEvent t r :: load_rows parse post)
  ∧ (∀ rows, (load_rows parse rows).length ≤ rows.length)
  ∧ (∀ rows e, e ∈ load_rows parse rows →
        ∃ r ∈ rows, parse r.timestamp = some e.timestamp ∧ e = mkEvent e.timestamp r) := by
  refine ⟨?_, ?_, ?_, ?_⟩
  · intro pre post r hr
    simp [load_rows, List.filterMap_append, List.filterMap_cons, hr]
  · intro pre post r t hr
    simp [load_rows, List.filterMap_append, List.filterMap_cons, hr]
  · intro rows
    exact List.length_filterMap_le _ rows
  · intro rows e he
    rw [load_rows, List.mem_filterMap] at he
    obtain ⟨r, hr, hparse⟩ := he
    rw [Option.map_eq_some'] at hparse
    obtain ⟨t, hpt, hmk⟩ := hparse
    have hts : e.timestamp = t := by rw [← hmk]; rfl
    refine ⟨r, hr, ?_, ?_⟩
    · rw [hts]; exact hpt
    · rw [hts, hmk]

/-- Witness for C7 with a concrete parser: the middle row with an
unparseable timestamp is dropped and the two good rows survive. -/
theorem unparseable_rows_dropped_witness :
    load_rows (fun s => if s = "bad" then none else some s.length)
        [{ timestamp := "hello", product := "P", plate := "A", status := "wait" },
         { timestamp := "bad", product := "P", plate := "B", status := "wait" },
         { timestamp := "ok", product := "P", plate := "C", status := "wait" }]
      = load_rows (fun s => if s = "bad" then none else some s.length)
          [{ timestamp := "hello", product := "P", plate := "A", status := "wait" }]
        ++ load_rows (fun s => if s = "bad" then none else some s.length)
            [{ timestamp := "ok", product := "P", plate := "C", status := "wait" }] :=
  (unparseable_rows_dropped fun s => if s = "bad" then none else some s.length).1
    [{ timestamp := "hello", product := "P", plate := "A", status := "wait" }]
    [{ timestamp := "ok", product := "P", plate := "C", status := "wait" }]
    { timestamp := "bad", product := "P", plate := "B", status := "wait" } (by decide)

/-! ### Claim C8: missing required columns fail the whole cycle -/

/-- C8: when any required column is still missing after the renames, the
load step fails the cycle with an error naming exactly the missing
columns, and yields no event list at all. -/
theorem missing_columns_fail_cycle (parse : String → Option Int) (feed : Feed)
    (h : missingCols feed.columns ≠ []) :
    load_action parse feed = Except.error (missingCols feed.columns)
  ∧ ∀ evs, load_action parse feed ≠ Except.ok evs := by
  have he : load_action parse feed = Except.error (missingCols feed.columns) := by
    rw [load_action, if_neg h]
  refine ⟨he, fun evs hc => ?_⟩
  rw [he] at hc
  exact Except.noConfusion hc

/-- Witness for C8: a feed whose header lacks any status column (before and
after renaming) is rejected with exactly that column named. -/
theorem missing_columns_fail_cycle_witness :
    load_action (fun s => some s.length)
        { columns := ["Time", "Product", "Plate"],
          rows := [{ timestamp := "x", product := "P", plate := "A", status := "wait" }] }
      = Except.error ["Status"] := by
  have h := missing_columns_fail_cycle (fun s => some s.length)
    { columns := ["Time", "Product", "Plate"],
      rows := [{ timestamp := "x", product := "P", plate := "A", status := "wait" }] }
    (by decide)
  rw [h.1]
  have : missingCols ["Time", "Product", "Plate"] = ["Status"] := by decide
  rw [this]

/-! ### Claim C1: interval reconstruction -/

lemma map_recKey_wide (evs : List Event) : (wide evs).map recKey = distinctKeys evs := by
  rw [wide, List.map_map]
  show List.map (fun k => k) (distinctKeys evs) = distinctKeys evs
  exact List.map_id _

lemma firstStage_field_spec (evs : List Event) (k : Int × String × String) (st : String) :
    (firstStageTime evs k st = none ↔ groupTimestamps evs k st = [])
  ∧ (∀ t, firstStageTime evs k st = some t →
      t ∈ groupTimestamps evs k st ∧ ∀ u ∈ groupTimestamps evs k st, t ≤ u) := by
  constructor
  · exact sortBy_id_head_none _
  · intro t ht
    exact sortBy_id_head_some _ t ht

/-- C1: the reconstruction yields exactly one record per distinct
(date, product, plate) key present in the input, and each of the three
status fields is the minimum timestamp among that key's events with that
status, absent exactly when the key has no event with that status. -/
theorem interval_reconstruction_correct (evs : List Event) :
    ((wide evs).map recKey).Nodup
  ∧ (∀ k, k ∈ evs.map evKey ↔ k ∈ (wide evs).map recKey)
  ∧ (∀ r, r ∈ wide evs →
      ((r.waiting = none ↔ groupTimestamps evs (recKey r) "Waiting" = [])
        ∧ (∀ t, r.waiting = some t → t ∈ groupTimestamps evs (recKey r) "Waiting"
            ∧ ∀ u ∈ groupTimestamps evs (recKey r) "Waiting", t ≤ u))
      ∧ ((r.startLoading = none ↔ groupTimestamps evs (recKey r) "Start Loading" = [])
        ∧ (∀ t, r.startLoading = some t → t ∈ groupTimestamps evs (recKey r) "Start Loading"
            ∧ ∀ u ∈ groupTimestamps evs (recKey r) "Start Loading", t ≤ u))
      ∧ ((r.completeLoading = none ↔ groupTimestamps evs (recKey r) "Complete Loading" = [])
        ∧ (∀ t, r.completeLoading = some t →
            t ∈ groupTimestamps evs (recKey r) "Complete Loading"
            ∧ ∀ u ∈ groupTimestamps evs (recKey r) "Complete Loading", t ≤ u))) := by
  refine ⟨?_, ?_, ?_⟩
  · rw [map_recKey_wide]
    exact List.nodup_dedup _
  · intro k
    rw [map_recKey_wide]
    simp [distinctKeys, List.mem_dedup]
  · intro r hr
    rw [wide, List.mem_map] at hr
    obtain ⟨k, hk, hrk⟩ := hr
    rw [← hrk]
    exact ⟨firstStage_field_spec evs k "Waiting",
           firstStage_field_spec evs k "Start Loading",
           firstStage_field_spec evs k "Complete Loading"⟩

/-- Witness for C1: two Waiting events for the same key, the later one
listed first; the reconstructed waiting field is the earlier timestamp. -/
theorem interval_reconstruction_correct_witness :
    (480 : Int) ∈ groupTimestamps
        [{ timestamp := 600, date := 0, product := "P", plate := "A", status := "Waiting" },
         { timestamp := 480, date := 0, product := "P", plate := "A", status := "Waiting" }]
        (0, "P", "A") "Waiting"
  ∧ ∀ u ∈ groupTimestamps
        [{ timestamp := 600, date := 0, product := "P", plate := "A", status := "Waiting" },
         { timestamp := 480, date := 0, product := "P", plate := "A", status := "Waiting" }]
        (0, "P", "A") "Waiting", (480 : Int) ≤ u :=
  ((interval_reconstruction_correct
      [{ timestamp := 600, date := 0, product := "P", plate := "A", status := "Waiting" },
       { timestamp := 480, date := 0, product := "P", plate := "A", status := "Waiting" }]).2.2
    { date := 0, product := "P", plate := "A", waiting := some 480,
      startLoading := none, completeLoading := none }
    (by decide)).1.2 480 (by decide)

/-! ### Claim C3: daily/product summary -/

lemma map_sumKey_summary (rows : List IntervalRecord) :
    (summaryOf rows).map sumKey = (rows.map fun r => (r.date, r.product)).dedup := by
  rw [summaryOf, List.map_map]
  show List.map (fun k => k) ((rows.map fun r => (r.date, r.product)).dedup)
      = (rows.map fun r => (r.date, r.product)).dedup
  exact List.map_id _

lemma filterMap_id_map {α : Type} (f : α → Option ℚ) (l : List α) :
    (l.map f).filterMap id = l.filterMap f := by
  rw [List.filterMap_map]
  rfl

lemma meanOpt_spec (xs : List (Option ℚ)) :
    (xs.filterMap id = [] → meanOpt xs = none)
  ∧ (xs.filterMap id ≠ [] → meanOpt xs
      = some ((xs.filterMap id).sum / (xs.filterMap id).length)) := by
  constructor
  · intro h
    simp [meanOpt, h]
  · intro h
    cases hys : xs.filterMap id with
    | nil => exact absurd hys h
    | cons y ys => simp [meanOpt, hys]

lemma meanOpt_round_spec (xs : List (Option ℚ)) :
    (xs.filterMap id = [] → (meanOpt xs).map round1 = none)
  ∧ (xs.filterMap id ≠ [] → (meanOpt xs).map round1
      = some (round1 ((xs.filterMap id).sum / (xs.filterMap id).length))) := by
  constructor
  · intro h
    rw [(meanOpt_spec xs).1 h]
    rfl
  · intro h
    rw [(meanOpt_spec xs).2 h]
    rfl

/-- C3 (amended): the summary has exactly one row per distinct (date, product) group,
each average is the arithmetic mean over the records of the group whose
value is known rounded to one decimal place (absent when none is known),
and the truck count is the full size of the group. -/
theorem daily_summary_correct (rows : List IntervalRecord) :
    ((summaryOf rows).map sumKey).Nodup
  ∧ (∀ k, k ∈ rows.map (fun r => (r.date, r.product)) ↔ k ∈ (summaryOf rows).map sumKey)
  ∧ (∀ s, s ∈ summaryOf rows →
      s.truckCount = (rows.filter fun r => r.date = s.date ∧ r.product = s.product).length
      ∧ (((rows.filter fun r => r.date = s.date ∧ r.product = s.product).filterMap
              (fun r => (durations r).waiting_min) = [] → s.avgWaiting = none)
        ∧ ((rows.filter fun r => r.date = s.date ∧ r.product = s.product).filterMap
              (fun r => (durations r).waiting_min) ≠ [] → s.avgWaiting
            = some (round1
                (((rows.filter fun r => r.date = s.date ∧ r.product = s.product).filterMap
                  (fun r => (durations r).waiting_min)).sum
                / ((rows.filter fun r => r.date = s.date ∧ r.product = s.product).filterMap
                  (fun r => (durations r).waiting_min)).length))))
      ∧ (((rows.filter fun r => r.date = s.date ∧ r.product = s.product).filterMap
              (fun r => (durations r).loading_min) = [] → s.avgLoading = none)
        ∧ ((rows.filter fun r => r.date = s.date ∧ r.product = s.product).filterMap
              (fun r => (durations r).loading_min) ≠ [] → s.avgLoading
            = some (round1
                (((rows.filter fun r => r.date = s.date ∧ r.product = s.product).filterMap
                  (fun r => (durations r).loading_min)).sum
                / ((rows.filter fun r => r.date = s.date ∧ r.product = s.product).filterMap
                  (fun r => (durations r).loading_min)).length))))
      ∧ (((rows.filter fun r => r.date = s.date ∧ r.product = s.product).filterMap
              (fun r => (durations r).total_min) = [] → s.avgTotal = none)
        ∧ ((rows.filter fun r => r.date = s.date ∧ r.product = s.product).filterMap
              (fun r => (durations r).total_min) ≠ [] → s.avgTotal
            = some (round1
                (((rows.filter fun r => r.date = s.date ∧ r.product = s.product).filterMap
                  (fun r => (durations r).total_min)).sum
                / ((rows.filter fun r => r.date = s.date ∧ r.product = s.product).filterMap
                  (fun r => (durations r).total_min)).length))))) := by
  refine ⟨?_, ?_, ?_⟩
  · rw [map_sumKey_summary]
    exact List.nodup_dedup _
  · intro k
    rw [map_sumKey_summary]
    exact (List.mem_dedup).symm
  · intro s hs
    rw [summaryOf, List.mem_map] at hs
    obtain ⟨k, hk, hsk⟩ := hs
    rw [← hsk]
    refine ⟨rfl, ?_, ?_, ?_⟩
    all_goals {
      constructor
      · intro h0
        apply (meanOpt_round_spec _).1
        rw [filterMap_id_map]
        exact h0
      · intro hne
        have h2 := (meanOpt_round_spec _).2 (by rw [filterMap_id_map]; exact hne)
        rw [filterMap_id_map] at h2
        exact h2
    }

/-- Witness for C3: a group of two records with no known durations yields
an absent average (not zero) while the truck count still counts both. -/
theorem daily_summary_correct_witness :
    ({ date := 0, product := "P", avgWaiting := none, avgLoading := none, avgTotal := none,
       truckCount := 2 } : Summary).truckCount
      = (([{ date := 0, product := "P", plate := "A", waiting := none, startLoading := none,
             completeLoading := none },
           { date := 0, product := "P", plate := "B", waiting := none, startLoading := none,
             completeLoading := none }] : List IntervalRecord).filter
          fun r => r.date = (0 : Int) ∧ r.product = "P").length
  ∧ ({ date := 0, product := "P", avgWaiting := none, avgLoading := none, avgTotal := none,
       truckCount := 2 } : Summary).avgWaiting = none := by
  have h := (daily_summary_correct
      [{ date := 0, product := "P", plate := "A", waiting := none, startLoading := none,
         completeLoading := none },
       { date := 0, product := "P", plate := "B", waiting := none, startLoading := none,
         completeLoading := none }]).2.2
    { date := 0, product := "P", avgWaiting := none, avgLoading := none, avgTotal := none,
      truckCount := 2 } (by decide)
  exact ⟨h.1, h.2.1.1 (by decide)⟩

/-- Counterexample to C3 as originally stated: a single-record group whose
waiting duration is one second (1/60 of a minute) has summary average 0
after the one-decimal rounding of the summary dataframe, while the exact
arithmetic mean over the known values is 1/60 — the program outputs the
rounded mean, not the exact mean. -/
theorem daily_summary_exact_mean_refuted :
    (summaryOf [{ date := 0, product := "P", plate := "A", waiting := some 0,
                  startLoading := some 1, completeLoading := none }]).map (fun s => s.avgWaiting)
      = [some 0]
  ∧ (([{ date := 0, product := "P", plate := "A", waiting := some 0,
         startLoading := some 1, completeLoading := none }] : List IntervalRecord).filterMap
        fun r => (durations r).waiting_min) = [1/60]
  ∧ some (0 : ℚ) ≠ some ((1 : ℚ)/60) := by
  have h60 : round1 ((1:ℚ)/60) = 0 := by
    have hfl : ⌊(10 * ((1:ℚ)/60))⌋ = 0 := by
      rw [Int.floor_eq_zero_iff]
      constructor <;> norm_num
    rw [round1, roundHalfEven, hfl]
    norm_num
  refine ⟨?_, ?_, ?_⟩
  · simp [summaryOf, meanOpt, durations, minutesBetween, dropNeg]
    norm_num [h60]
  · simp [durations, minutesBetween, dropNeg]
  · simp

/-! ### Toolkit for the latest-state derivation -/

lemma mem_of_getLast?_eq {α : Type} {l : List α} {x : α} (h : l.getLast? = some x) :
    x ∈ l := by
  obtain ⟨hne, hx⟩ := List.mem_getLast?_eq_getLast (by rw [Option.mem_def]; exact h)
  rw [hx]
  exact List.getLast_mem hne

lemma getLast?_map_comm {α β : Type} (f : α → β) :
    ∀ l : List α, (l.map f).getLast? = (l.getLast?).map f
  | [] => rfl
  | [a] => rfl
  | a :: b :: t => by
      rw [List.map_cons, List.map_cons, List.getLast?_cons_cons, List.getLast?_cons_cons,
        ← List.map_cons]
      exact getLast?_map_comm f (b :: t)

lemma getLast?_sorted_max {α κ : Type} [LinearOrder κ] (key : α → κ) :
    ∀ l : List α, (l.Pairwise fun a b => key a ≤ key b) →
      ∀ x, l.getLast? = some x → ∀ y ∈ l, key y ≤ key x := by
  intro l
  induction l with
  | nil => intro _ x hx; simp at hx
  | cons a t ih =>
      intro hp x hx y hy
      cases t with
      | nil =>
          simp only [List.getLast?_singleton, Option.some.injEq] at hx
          rcases List.mem_singleton.mp hy with h2
          rw [h2, hx]
      | cons b t2 =>
          rw [List.getLast?_cons_cons] at hx
          rcases List.mem_cons.mp hy with h2 | h2
          · have hxm : x ∈ b :: t2 := mem_of_getLast?_eq hx
            rw [h2]
            exact (List.pairwise_cons.mp hp).1 x hxm
          · exact ih (List.pairwise_cons.mp hp).2 x hx y h2

lemma getLast?_of_strict_key {α : Type} (f : α → Nat) :
    ∀ l : List α, (l.Pairwise fun a b => f a < f b) →
      ∀ x ∈ l, (∀ y ∈ l, f y ≤ f x) → l.getLast? = some x := by
  intro l
  induction l with
  | nil => intro _ x hx; simp at hx
  | cons a t ih =>
      intro hp x hx hbd
      cases t with
      | nil =>
          rcases List.mem_singleton.mp hx with h2
          rw [h2]
          rfl
      | cons b t2 =>
          rw [List.getLast?_cons_cons]
          have hxt : x ∈ b :: t2 := by
            rcases List.mem_cons.mp hx with h2 | h2
            · exfalso
              have hab : f a < f b := (List.pairwise_cons.mp hp).1 b (List.mem_cons_self b t2)
              have hba : f b ≤ f x := hbd b (List.mem_cons_of_mem a (List.mem_cons_self b t2))
              rw [← h2] at hab
              exact absurd (lt_of_lt_of_le hab hba) (lt_irrefl (f x))
            · exact h2
          exact ih (List.pairwise_cons.mp hp).2 x hxt
            fun y hy => hbd y (List.mem_cons_of_mem a hy)

lemma le_fst_of_mem_enumFrom {α : Type} :
    ∀ (l : List α) (m : Nat) (p : Nat × α), p ∈ l.enumFrom m → m ≤ p.1 := by
  intro l
  induction l with
  | nil => intro m p hp; simp [List.enumFrom] at hp
  | cons a t ih =>
      intro m p hp
      rw [List.enumFrom_cons] at hp
      rcases List.mem_cons.mp hp with h2 | h2
      · rw [h2]
      · exact le_trans (Nat.le_succ m) (ih (m + 1) p h2)

lemma enumFrom_pairwise_fst {α : Type} :
    ∀ (l : List α) (m : Nat), (l.enumFrom m).Pairwise fun a b => a.1 < b.1 := by
  intro l
  induction l with
  | nil => intro m; simp [List.enumFrom]
  | cons a t ih =>
      intro m
      rw [List.enumFrom_cons, List.pairwise_cons]
      exact ⟨fun p hp => lt_of_lt_of_le (Nat.lt_succ_self m) (le_fst_of_mem_enumFrom t (m + 1) p hp),
             ih (m + 1)⟩

lemma enumFrom_filter_snd {α : Type} (q : α → Bool) :
    ∀ (l : List α) (m : Nat),
      ((l.enumFrom m).filter fun p => q p.2).map (·.2) = l.filter q := by
  intro l
  induction l with
  | nil => intro m; rfl
  | cons a t ih =>
      intro m
      rw [List.enumFrom_cons, List.filter_cons, List.filter_cons]
      cases hq : q a
      · simp [hq, ih (m + 1)]
      · simp [hq, ih (m + 1)]

lemma mem_enum_of_mem {α : Type} {l : List α} {a : α} (h : a ∈ l) :
    ∃ i, (i, a) ∈ l.enum := by
  have hm : a ∈ (l.enum).map Prod.snd := by rw [List.enum_map_snd]; exact h
  obtain ⟨p, hp, hpa⟩ := List.mem_map.mp hm
  exact ⟨p.1, by rw [← hpa]; exact hp⟩

/-- Core fact about `latestFor`: for a plate observed on the selected date,
the selected event is the plate's event of maximal timestamp on that date,
and among timestamp ties it is the one appearing last in the original
input order. -/
lemma latestFor_spec (evs : List Event) (d : Int) (pl : String)
    (h : pl ∈ (evs.filter fun e => e.date = d).map (·.plate)) :
    ∃ e, latestFor evs d pl = some e ∧ e.plate = pl ∧ e.date = d ∧ e ∈ evs
      ∧ (∀ z ∈ evs, z.date = d → z.plate = pl → z.timestamp ≤ e.timestamp)
      ∧ (evs.filter fun z => z.date = d ∧ z.plate = pl
          ∧ z.timestamp = e.timestamp).getLast? = some e := by
  have hperm : List.Perm ((sortBy latestSortKey (dayRows evs d)).filter
      fun x => x.2.plate = pl) ((dayRows evs d).filter fun x => x.2.plate = pl) :=
    (sortBy_perm latestSortKey (dayRows evs d)).filter _
  obtain ⟨e0, hmem_day, hpl0⟩ := List.mem_map.mp h
  obtain ⟨i0, hi0⟩ := mem_enum_of_mem hmem_day
  have hi0G0 : (i0, e0) ∈ (dayRows evs d).filter (fun x => x.2.plate = pl) := by
    rw [List.mem_filter]
    exact ⟨hi0, by simp [hpl0]⟩
  have hGne : (sortBy latestSortKey (dayRows evs d)).filter (fun x => x.2.plate = pl) ≠ [] := by
    intro h0
    rw [h0] at hperm
    exact List.ne_nil_of_mem hi0G0 hperm.symm.eq_nil
  obtain ⟨x, hx⟩ := Option.isSome_iff_exists.mp (List.getLast?_isSome.mpr hGne)
  have hxG : x ∈ (sortBy latestSortKey (dayRows evs d)).filter (fun x => x.2.plate = pl) :=
    mem_of_getLast?_eq hx
  have hxG0 : x ∈ (dayRows evs d).filter (fun x => x.2.plate = pl) := hperm.mem_iff.mp hxG
  have hx_enum : x ∈ dayRows evs d := (List.mem_filter.mp hxG0).1
  have hx_pl : x.2.plate = pl := by
    have h2 := (List.mem_filter.mp hxG0).2
    simpa using h2
  have hx_day : x.2 ∈ evs.filter fun e => e.date = d := by
    have hm : x.2 ∈ ((evs.filter fun e => e.date = d).enum).map Prod.snd :=
      List.mem_map_of_mem _ hx_enum
    rw [List.enum_map_snd] at hm
    exact hm
  have hx_evs : x.2 ∈ evs := (List.mem_filter.mp hx_day).1
  have hx_date : x.2.date = d := by
    have h2 := (List.mem_filter.mp hx_day).2
    simpa using h2
  have hsorted : ((sortBy latestSortKey (dayRows evs d)).filter
      (fun x => x.2.plate = pl)).Pairwise
      (fun a b => latestSortKey a ≤ latestSortKey b) :=
    (sortBy_sorted latestSortKey (dayRows evs d)).filter _
  have hmaxkey : ∀ y ∈ (sortBy latestSortKey (dayRows evs d)).filter
      (fun x => x.2.plate = pl), latestSortKey y ≤ latestSortKey x :=
    getLast?_sorted_max latestSortKey _ hsorted x hx
  have key_le : ∀ y : Nat × Event, y.2.plate = pl → latestSortKey y ≤ latestSortKey x →
      y.2.timestamp ≤ x.2.timestamp ∧ (y.2.timestamp = x.2.timestamp → y.1 ≤ x.1) := by
    intro y hypl hkey
    rw [latestSortKey, latestSortKey, Prod.Lex.le_iff] at hkey
    have hdata : y.2.plate.data = x.2.plate.data := by rw [hypl, hx_pl]
    rcases hkey with hlt | ⟨heq, hinner⟩
    · rw [hdata] at hlt
      exact absurd hlt (lt_irrefl _)
    · rw [Prod.Lex.le_iff] at hinner
      rcases hinner with hlt2 | ⟨heq2, hle2⟩
      · exact ⟨le_of_lt hlt2, fun hts => absurd hts (ne_of_lt hlt2)⟩
      · exact ⟨le_of_eq heq2, fun _ => hle2⟩
  have hmax : ∀ z ∈ evs, z.date = d → z.plate = pl → z.timestamp ≤ x.2.timestamp := by
    intro z hz hzd hzpl
    have hzday : z ∈ evs.filter fun e => e.date = d := by
      rw [List.mem_filter]
      exact ⟨hz, by simp [hzd]⟩
    obtain ⟨j, hj⟩ := mem_enum_of_mem hzday
    have hjG : (j, z) ∈ (sortBy latestSortKey (dayRows evs d)).filter
        (fun x => x.2.plate = pl) := by
      apply hperm.mem_iff.mpr
      rw [List.mem_filter]
      exact ⟨hj, by simp [hzpl]⟩
    exact (key_le (j, z) hzpl (hmaxkey _ hjG)).1
  have hT0 : (((evs.filter fun e => e.date = d).enumFrom 0).filter
      fun p => (fun z => decide (z.plate = pl ∧ z.timestamp = x.2.timestamp)) p.2).getLast?
      = some x := by
    apply getLast?_of_strict_key Prod.fst
    · exact List.Pairwise.sublist (List.filter_sublist _) (enumFrom_pairwise_fst _ 0)
    · rw [List.mem_filter]
      exact ⟨hx_enum, by simp [hx_pl]⟩
    · intro y hy
      rw [List.mem_filter] at hy
      obtain ⟨hy_enum, hy_cond⟩ := hy
      have hcond : y.2.plate = pl ∧ y.2.timestamp = x.2.timestamp := by
        simpa using hy_cond
      have hyG : y ∈ (sortBy latestSortKey (dayRows evs d)).filter
          (fun x => x.2.plate = pl) := by
        apply hperm.mem_iff.mpr
        rw [List.mem_filter]
        exact ⟨hy_enum, by simp [hcond.1]⟩
      exact (key_le y hcond.1 (hmaxkey _ hyG)).2 hcond.2
  have hstep : ((evs.filter fun e => e.date = d).filter
        fun z => decide (z.plate = pl ∧ z.timestamp = x.2.timestamp)).getLast?
      = some x.2 := by
    rw [← enumFrom_filter_snd (fun z => decide (z.plate = pl ∧ z.timestamp = x.2.timestamp))
      (evs.filter fun e => e.date = d) 0]
    rw [getLast?_map_comm, hT0]
    rfl
  have hcollapse : (evs.filter fun z => z.date = d ∧ z.plate = pl
        ∧ z.timestamp = x.2.timestamp)
      = (evs.filter fun e => e.date = d).filter
        fun z => decide (z.plate = pl ∧ z.timestamp = x.2.timestamp) := by
    rw [List.filter_filter]
    apply List.filter_congr
    intro z hz
    by_cases h1 : z.date = d <;> by_cases h2 : z.plate = pl
      <;> by_cases h3 : z.timestamp = x.2.timestamp <;> simp [h1, h2, h3]
  have hlatest : latestFor evs d pl = some x.2 := by
    rw [latestFor, getLast?_map_comm, hx]
    rfl
  exact ⟨x.2, hlatest, hx_pl, hx_date, hx_evs, hmax, by rw [hcollapse]; exact hstep⟩

/-! ### Claim C5: latest event per vehicle, ties broken by input order -/

/-- C5: for every vehicle observed on the target date, the live state is
the event with the maximum timestamp among that vehicle's events of the
date, and among events sharing that maximum timestamp the one appearing
last in the original input sequence wins. -/
theorem live_state_latest_event (evs : List Event) (selDate : Int) (pl : String)
    (h : pl ∈ (evs.filter fun e => e.date = selDate).map (·.plate)) :
    ∃ e, latestFor evs selDate pl = some e ∧ e ∈ latestPerPlate evs selDate
      ∧ e.plate = pl ∧ e.date = selDate ∧ e ∈ evs
      ∧ (∀ z ∈ evs, z.date = selDate → z.plate = pl → z.timestamp ≤ e.timestamp)
      ∧ (evs.filter fun z => z.date = selDate ∧ z.plate = pl
          ∧ z.timestamp = e.timestamp).getLast? = some e := by
  obtain ⟨e, he, h1, h2, h3, h4, h5⟩ := latestFor_spec evs selDate pl h
  refine ⟨e, he, ?_, h1, h2, h3, h4, h5⟩
  rw [latestPerPlate, List.mem_filterMap]
  exact ⟨pl, List.mem_dedup.mpr h, he⟩

/-- Witness for C5: two events of the same plate share the maximal
timestamp; the one listed later in the input is selected. -/
theorem live_state_latest_event_witness :
    ∃ e, latestFor
        [{ timestamp := 100, date := 0, product := "P", plate := "A", status := "Waiting" },
         { timestamp := 100, date := 0, product := "P", plate := "A", status := "Unloading" }]
        0 "A" = some e
      ∧ e ∈ latestPerPlate
          [{ timestamp := 100, date := 0, product := "P", plate := "A", status := "Waiting" },
           { timestamp := 100, date := 0, product := "P", plate := "A", status := "Unloading" }] 0
      ∧ e.plate = "A" := by
  obtain ⟨e, h1, h2, h3, h4⟩ := live_state_latest_event
    [{ timestamp := 100, date := 0, product := "P", plate := "A", status := "Waiting" },
     { timestamp := 100, date := 0, product := "P", plate := "A", status := "Unloading" }]
    0 "A" (by decide)
  exact ⟨e, h1, h2, h3⟩

/-! ### Claim C6: fixed three-way live counts -/

lemma length_filter_mem_three (l : List Event) (s1 s2 s3 : String)
    (h12 : s1 ≠ s2) (h13 : s1 ≠ s3) (h23 : s2 ≠ s3) :
    (l.filter fun e => e.status = s1).length + (l.filter fun e => e.status = s2).length
      + (l.filter fun e => e.status = s3).length
    = (l.filter fun e => e.status ∈ [s1, s2, s3]).length := by
  induction l with
  | nil => rfl
  | cons e t ih =>
      by_cases h1 : e.status = s1
      · by_cases h2 : e.status = s2
        · exact absurd (h1.symm.trans h2) h12
        · by_cases h3 : e.status = s3
          · exact absurd (h1.symm.trans h3) h13
          · simp [List.filter_cons, h1, h2, h3, h12, h13, h23,
              h12.symm, h13.symm, h23.symm, List.mem_cons] at ih ⊢
            omega
      · by_cases h2 : e.status = s2
        · by_cases h3 : e.status = s3
          · exact absurd (h2.symm.trans h3) h23
          · simp [List.filter_cons, h1, h2, h3, h12, h13, h23,
              h12.symm, h13.symm, h23.symm, List.mem_cons] at ih ⊢
            omega
        · by_cases h3 : e.status = s3
          · simp [List.filter_cons, h1, h2, h3, h12, h13, h23,
              h12.symm, h13.symm, h23.symm, List.mem_cons] at ih ⊢
            omega
          · simp [List.filter_cons, h1, h2, h3, h12, h13, h23,
              h12.symm, h13.symm, h23.symm, List.mem_cons] at ih ⊢
            omega

lemma filterMap_total_map {α β : Type} (f : α → Option β) (g : β → α) :
    ∀ l : List α, (∀ a ∈ l, ∃ b, f a = some b ∧ g b = a) → (l.filterMap f).map g = l := by
  intro l
  induction l with
  | nil => intro _; rfl
  | cons a t ih =>
      intro hall
      obtain ⟨b, hb, hgb⟩ := hall a (List.mem_cons_self a t)
      rw [List.filterMap_cons, hb, List.map_cons, hgb,
        ih fun c hc => hall c (List.mem_cons_of_mem _ hc)]

/-- C6: the live count result lists exactly the three known statuses, each
count is the number of latest-events with that status (zero when none),
unrecognized statuses contribute to none of the three counts, and there is
exactly one latest event per vehicle observed on the date. -/
theorem live_counts_three_statuses (evs : List Event) (selDate : Int) :
    (status_counts evs selDate).map (·.1) = knownStatuses
  ∧ (∀ st n, (st, n) ∈ status_counts evs selDate ↔ st ∈ knownStatuses
      ∧ n = ((latestPerPlate evs selDate).filter fun e => e.status = st).length)
  ∧ ((status_counts evs selDate).map (·.2)).sum
      = ((latestPerPlate evs selDate).filter fun e => e.status ∈ knownStatuses).length
  ∧ (latestPerPlate evs selDate).map (·.plate)
      = ((evs.filter fun e => e.date = selDate).map (·.plate)).dedup := by
  refine ⟨?_, ?_, ?_, ?_⟩
  · rw [status_counts, List.map_map]
    show List.map (fun st => st) knownStatuses = knownStatuses
    exact List.map_id _
  · intro st n
    rw [status_counts, List.mem_map]
    constructor
    · rintro ⟨a, ha, heq⟩
      obtain ⟨hfst, hsnd⟩ := Prod.mk.injEq _ _ _ _ ▸ heq
      subst hfst
      exact ⟨ha, hsnd.symm⟩
    · rintro ⟨hst, hn⟩
      exact ⟨st, hst, by rw [hn]⟩
  · have hl := length_filter_mem_three (latestPerPlate evs selDate)
      "Waiting" "Start Loading" "Complete Loading" (by decide) (by decide) (by decide)
    simp only [status_counts, knownStatuses, List.map_cons, List.map_nil,
      List.sum_cons, List.sum_nil]
    omega
  · rw [latestPerPlate]
    apply filterMap_total_map
    intro pl hpl
    obtain ⟨e, he, hepl, _⟩ := latestFor_spec evs selDate pl (List.mem_dedup.mp hpl)
    exact ⟨e, he, hepl⟩

/-- Witness for C6: the scenario of a single vehicle at Waiting yields a
Waiting count of one. -/
theorem live_counts_three_statuses_witness :
    ("Waiting", 1) ∈ status_counts
      [{ timestamp := 10, date := 0, product := "P", plate := "X", status := "Waiting" }] 0 :=
  ((live_counts_three_statuses
      [{ timestamp := 10, date := 0, product := "P", plate := "X", status := "Waiting" }] 0).2.1
    "Waiting" 1).mpr ⟨by decide, by decide⟩
